import Mathlib

/-!
Verification development for `src/resolve.rs` of crate2nix: resolving
dependencies and other data for a `CrateDerivation`.

Modelling conventions:
* A Rust `PathBuf` is modelled as its list of components (`List String`);
  the Rust root directory component `/` is modelled as a leading `"/"`
  component; `"."` and `".."` are ordinary components.  `PathBuf::from("./.")`
  is therefore the two-component path `[".", "."]` and
  `PathBuf::from("./").join(p)` prepends `"."`.
* `PackageId` and `semver::Version` are modelled as `String` (both are
  totally ordered by their textual representation, and UTF-8 byte order
  agrees with code-point order).
* Fallible Rust code returning `Result<_, failure::Error>` is modelled with
  `Except String`; `format_err!` messages are built by string concatenation.
* `HashMap` collected from an iterator keeps the *last* binding of each key;
  this is modelled by an association list in insertion order, looked up in
  reverse.
* Rust's stable `sort_by` is modelled by `List.insertionSort`, which is a
  stable sort; for a fixed total preorder the stably sorted permutation is
  unique, so this is semantically exact.
-/

/-- A package identifier (opaque, totally ordered; modelled as its text). -/
abbrev PackageId := String

/-- A filesystem path, as its list of components. -/
abbrev PathBuf := List String

/-- The parent directory of a path (Rust `Path::parent`): `none` for the
empty path and for the bare root. -/
def PathBuf.parent : PathBuf → Option PathBuf
  | [] => none
  | ["/"] => none
  | p => some p.dropLast

/-- Does the base match the first components?  Returns the rest on success. -/
def stripComponents : List String → List String → Option (List String)
  | [], rest => some rest
  | _ :: _, [] => none
  | b :: bs, c :: cs => if c == b then stripComponents bs cs else none

/-- Models Rust `Path::strip_prefix(base).ok()`: removes `base`'s components
from the front of `self`, or `none` when `base` is not a component-wise
base of `self`. -/
def PathBuf.stripBase (self base : PathBuf) : Option PathBuf :=
  stripComponents base self

/-- Is the path absolute (does it start with the root component)? -/
def PathBuf.is_absolute (p : PathBuf) : Bool := p.head? == some "/"

/-- Loop of `pathdiff::diff_paths` once the accumulated components are
non-empty: the equal-component skip no longer applies. -/
def diffNonempty : List String → List String → Option (List String)
  | as, [] => some as
  | [], _ :: bs => (diffNonempty [] bs).map (fun rest => ".." :: rest)
  | a :: as, b :: bs =>
    if b == "." then (diffNonempty as bs).map (fun rest => a :: rest)
    else if b == ".." then none
    else some ((".." :: bs.map (fun _ => "..")) ++ a :: as)

/-- Loop of `pathdiff::diff_paths` while no component has been emitted yet:
common leading components are skipped. -/
def diffEmpty : List String → List String → Option (List String)
  | as, [] => some as
  | [], _ :: bs => (diffNonempty [] bs).map (fun rest => ".." :: rest)
  | a :: as, b :: bs =>
    if a == b then diffEmpty as bs
    else if b == "." then (diffNonempty as bs).map (fun rest => a :: rest)
    else if b == ".." then none
    else some ((".." :: bs.map (fun _ => "..")) ++ a :: as)

/-- Models `pathdiff::diff_paths(path, base)` (external crate): the relative
path from `base` to `path`. -/
def diff_paths (path base : PathBuf) : Option PathBuf :=
  if PathBuf.is_absolute path != PathBuf.is_absolute base then
    if PathBuf.is_absolute path then some path else none
  else
    diffEmpty path base

/-- `cargo_metadata::DependencyKind`. -/
inductive DependencyKind where
  | normal
  | development
  | build
  | unknown
deriving DecidableEq, Repr

/-- `cargo_metadata::Dependency` (the fields used by `resolve.rs`): a
dependency as declared in the manifest.  `target` is the optional platform
condition, already rendered to its display string. -/
structure Dependency where
  name : String
  kind : DependencyKind
  target : Option String
deriving DecidableEq, Repr

/-- `cargo_metadata::Target` (the fields used by `resolve.rs`). -/
structure Target where
  kind : List String
  src_path : PathBuf
deriving DecidableEq, Repr

/-- `cargo_metadata::Package` (the fields used by `resolve.rs`). -/
structure Package where
  id : PackageId
  name : String
  version : String
  edition : String
  authors : List String
  manifest_path : PathBuf
  targets : List Target
  dependencies : List Dependency
deriving DecidableEq, Repr

/-- One edge of a resolve-graph node (`cargo_metadata::NodeDep`, only the
`pkg` field is used). -/
structure NodeDep where
  pkg : PackageId
deriving DecidableEq, Repr

/-- `cargo_metadata::Node`: the resolved-graph adjacency record. -/
structure Node where
  id : PackageId
  deps : List NodeDep
  features : List String
deriving DecidableEq, Repr

/-- Modelled from the spec: the Indexed Graph boundary (`IndexedMetadata`
from the repository's `metadata.rs`, which is not part of the supplied
sources) — node lookup by package identifier, package lookup by package
identifier, the optional declared root identifier and the workspace-member
set.  The id-keyed maps are modelled as association lists with unique keys. -/
structure IndexedMetadata where
  root : Option PackageId
  workspace_members : List PackageId
  pkgs_by_id : List (PackageId × Package)
  nodes_by_id : List (PackageId × Node)

/-- Modelled from the spec: the configuration (`GenerateConfig` from the
repository's `main.rs`, not part of the supplied sources); only the path of
the configured root manifest is used by `resolve.rs`. -/
structure GenerateConfig where
  cargo_toml : PathBuf

/-- Output record `ResolvedDependency` of `resolve.rs`. -/
structure ResolvedDependency where
  package_id : PackageId
  target : Option String
deriving DecidableEq, Repr

/-- Output record `CrateDerivation` of `resolve.rs`. -/
structure CrateDerivation where
  package_id : PackageId
  crate_name : String
  edition : String
  authors : List String
  version : String
  source_directory : PathBuf
  sha256 : Option String
  dependencies : List ResolvedDependency
  build_dependencies : List ResolvedDependency
  features : List String
  build : Option PathBuf
  lib_path : Option PathBuf
  has_bin : Bool
  proc_macro : Bool
  is_root_or_workspace_member : Bool
deriving DecidableEq, Repr

/-- The resolved dependencies of one package/crate
(`ResolvedDependencies` in `resolve.rs`). -/
structure ResolvedDependencies where
  node : Node
  packages : List Package
  dependencies : List Dependency
deriving DecidableEq, Repr

/-- Models `serde_json::to_string_pretty` on a `Package` (abstract
serialization; only its presence in error messages matters). -/
def to_string_pretty_package (package : Package) : String :=
  "\x7b \"name\": \"" ++ package.name ++ "\", \"id\": \"" ++ package.id ++ "\" \x7d"

/-- Models `serde_json::to_string_pretty` on a `Node`. -/
def to_string_pretty_node (node : Node) : String :=
  "\x7b \"id\": \"" ++ node.id ++ "\" \x7d"

/-- The `format_err!` message issued when the package has no graph node. -/
def missing_node_error (package : Package) : String :=
  "Could not find node for " ++ package.id ++ ".\n-- Package\n" ++
    to_string_pretty_package package

/-- The `format_err!` message issued when a node edge references a package
identifier absent from the package index. -/
def missing_package_error (dep_pkg : PackageId) (package : Package) (node : Node) : String :=
  "No matching package for dependency with package id " ++ dep_pkg ++ " in " ++
    package.id ++ ".\n-- Package\n" ++ to_string_pretty_package package ++
    "\n-- Node\n" ++ to_string_pretty_node node

/-- Lexicographic comparison of character lists (executable; proven
equivalent to the library order on strings below). -/
def charListLe : List Char → List Char → Bool
  | [], _ => true
  | _ :: _, [] => false
  | a :: as, b :: bs =>
    if a.val.toNat < b.val.toNat then true
    else if b.val.toNat < a.val.toNat then false
    else charListLe as bs

/-- Executable form of `String` comparison (Rust `str::cmp` is byte-wise
lexicographic, which agrees with code-point-wise lexicographic on UTF-8). -/
def pidLeB (a b : PackageId) : Bool := charListLe a.toList b.toList

/-- The comparison `|p1, p2| p1.id.cmp(&p2.id)` used to sort the packages. -/
def pkgLe (p q : Package) : Prop := pidLeB p.id q.id = true

instance : DecidableRel pkgLe := fun p q =>
  inferInstanceAs (Decidable (pidLeB p.id q.id = true))

/-- The `map`/`collect::<Result<_, Error>>` over `node.deps` in
`ResolvedDependencies::new`: look every edge's package up, short-circuiting
on the first missing one. -/
def collect_packages (metadata : IndexedMetadata) (package : Package) (node : Node) :
    List NodeDep → Except String (List Package)
  | [] => .ok []
  | d :: rest =>
    match List.lookup d.pkg metadata.pkgs_by_id with
    | none => .error (missing_package_error d.pkg package node)
    | some p =>
      match collect_packages metadata package node rest with
      | .error e => .error e
      | .ok ps => .ok (p :: ps)

/-- `ResolvedDependencies::new`. -/
def ResolvedDependencies.new (metadata : IndexedMetadata) (package : Package) :
    Except String ResolvedDependencies :=
  match List.lookup package.id metadata.nodes_by_id with
  | none => .error (missing_node_error package)
  | some node =>
    match collect_packages metadata package node node.deps with
    | .error e => .error e
    | .ok packages =>
      .ok { node := node
            packages := List.insertionSort pkgLe packages
            dependencies := package.dependencies }

/-- `normalize_package_name`: normalize a package name such as cargo does
(Rust `package_name.replace('-', "_")`). -/
def normalize_package_name (package_name : String) : String :=
  String.mk (package_name.toList.map (fun c => if c == '-' then '_' else c))

/-- The name-keyed matching map of
`ResolvedDependencies::filtered_dependencies`: the `HashMap` collected from
the filtered declared dependencies keeps the last binding per key, so it is
modelled as the association list in insertion order, probed in reverse. -/
def dependency_names (deps : List Dependency) (filter : Dependency → Bool) :
    List (String × Dependency) :=
  (deps.filter filter).map (fun d => (normalize_package_name d.name, d))

/-- `ResolvedDependencies::filtered_dependencies` body: probe the map once
per resolved edge package. -/
def ResolvedDependencies.filtered_dependencies (self : ResolvedDependencies)
    (filter : Dependency → Bool) : List ResolvedDependency :=
  self.packages.filterMap (fun d =>
    (List.lookup (normalize_package_name d.name)
        (dependency_names self.dependencies filter).reverse).map
      (fun dependency => { package_id := d.id, target := dependency.target }))

/-- The predicate `|d| d.kind == DependencyKind::Build` of
`CrateDerivation::resolve`. -/
def build_dep_filter (d : Dependency) : Bool :=
  d.kind == DependencyKind.build

/-- The predicate
`|d| d.kind == DependencyKind::Normal || d.kind == DependencyKind::Unknown`
of `CrateDerivation::resolve`. -/
def normal_dep_filter (d : Dependency) : Bool :=
  d.kind == DependencyKind.normal || d.kind == DependencyKind.unknown

/-- `CrateDerivation::resolve`.  The one filesystem interaction —
canonicalizing the configured `Cargo.toml` path — is passed in as the
function `canonicalize`; the two `expect`/`unwrap` panics are modelled as
errors with distinguished messages. -/
def CrateDerivation.resolve (canonicalize : PathBuf → Except String PathBuf)
    (config : GenerateConfig) (metadata : IndexedMetadata) (package : Package) :
    Except String CrateDerivation :=
  match ResolvedDependencies.new metadata package with
  | .error e => .error e
  | .ok resolved_dependencies =>
    let build_dependencies :=
      resolved_dependencies.filtered_dependencies build_dep_filter
    let dependencies :=
      resolved_dependencies.filtered_dependencies normal_dep_filter
    match PathBuf.parent package.manifest_path with
    | none => .error "PANIC: WUUT? No parent directory of manifest?"
    | some package_path =>
      let lib_path :=
        (package.targets.find? (fun t => t.kind.any (fun k => k == "lib"))).bind
          (fun target => PathBuf.stripBase target.src_path package_path)
      let build :=
        (package.targets.find? (fun t => t.kind.any (fun k => k == "custom-build"))).bind
          (fun target => PathBuf.stripBase target.src_path package_path)
      let proc_macro :=
        package.targets.any (fun t => t.kind.any (fun k => k == "proc-macro"))
      let has_bin :=
        package.targets.any (fun t => t.kind.any (fun k => k == "bin"))
      match canonicalize config.cargo_toml with
      | .error e => .error e
      | .ok canonical =>
        match PathBuf.parent canonical with
        | none => .error "PANIC: called Option::unwrap on a None value"
        | some config_directory =>
          let relative_source : PathBuf :=
            if package_path = config_directory then
              [".", "."]
            else
              let path :=
                (diff_paths package_path config_directory).getD package_path
              if path.head? = some ".." then path
              else "." :: path
          .ok { crate_name := package.name
                edition := package.edition
                authors := package.authors
                package_id := package.id
                version := package.version
                sha256 := none
                source_directory := relative_source
                features := resolved_dependencies.node.features
                dependencies := dependencies
                build_dependencies := build_dependencies
                build := build
                lib_path := lib_path
                proc_macro := proc_macro
                has_bin := has_bin
                is_root_or_workspace_member :=
                  (metadata.root.toList ++ metadata.workspace_members).any
                    (fun pkg_id => pkg_id == package.id) }

/-- Identity canonicalization used in concrete instances (the paths in the
instances are already canonical). -/
def exCanon : PathBuf → Except String PathBuf := fun p => Except.ok p

/-- Concrete configuration rooted at `/root/Cargo.toml`. -/
def exConfig : GenerateConfig := { cargo_toml := ["/", "root", "Cargo.toml"] }

/-- Concrete registry package `once_cell`. -/
def exOnceCell : Package :=
  { id := "once_cell 1.0.0 (registry)", name := "once_cell", version := "1.0.0",
    edition := "2018", authors := [],
    manifest_path := ["/", "reg", "once_cell", "Cargo.toml"],
    targets := [{ kind := ["lib"], src_path := ["/", "reg", "once_cell", "src", "lib.rs"] }],
    dependencies := [] }

/-- Concrete registry package `cc`. -/
def exCc : Package :=
  { id := "cc 1.0.0 (registry)", name := "cc", version := "1.0.0",
    edition := "2015", authors := [],
    manifest_path := ["/", "reg", "cc", "Cargo.toml"],
    targets := [{ kind := ["lib"], src_path := ["/", "reg", "cc", "src", "lib.rs"] }],
    dependencies := [] }

/-- Concrete root package `left-pad` (manifest directory equals the
configured root), declaring a normal, a build and a development dependency. -/
def exLeftPad : Package :=
  { id := "left-pad 1.2.3 (path)", name := "left-pad", version := "1.2.3",
    edition := "2018", authors := ["A Person"],
    manifest_path := ["/", "root", "Cargo.toml"],
    targets :=
      [{ kind := ["lib"], src_path := ["/", "root", "src", "lib.rs"] },
       { kind := ["bin"], src_path := ["/", "root", "src", "main.rs"] },
       { kind := ["custom-build"], src_path := ["/", "root", "build.rs"] }],
    dependencies :=
      [{ name := "once-cell", kind := DependencyKind.normal, target := none },
       { name := "cc", kind := DependencyKind.build, target := some "cfg(unix)" },
       { name := "devhelper", kind := DependencyKind.development, target := none }] }

/-- The resolve-graph node of `left-pad`. -/
def exNode : Node :=
  { id := "left-pad 1.2.3 (path)",
    deps := [{ pkg := "once_cell 1.0.0 (registry)" }, { pkg := "cc 1.0.0 (registry)" }],
    features := ["default"] }

/-- The node of `left-pad` with its edge list reversed. -/
def exNodeRev : Node :=
  { id := "left-pad 1.2.3 (path)",
    deps := [{ pkg := "cc 1.0.0 (registry)" }, { pkg := "once_cell 1.0.0 (registry)" }],
    features := ["default"] }

/-- Concrete indexed metadata around `left-pad`. -/
def exMeta : IndexedMetadata :=
  { root := some "left-pad 1.2.3 (path)",
    workspace_members := [],
    pkgs_by_id :=
      [("left-pad 1.2.3 (path)", exLeftPad),
       ("once_cell 1.0.0 (registry)", exOnceCell),
       ("cc 1.0.0 (registry)", exCc)],
    nodes_by_id := [("left-pad 1.2.3 (path)", exNode)] }

/-- `exMeta` with the edge order of `left-pad`'s node reversed. -/
def exMetaRev : IndexedMetadata :=
  { exMeta with nodes_by_id := ("left-pad 1.2.3 (path)", exNodeRev) :: exMeta.nodes_by_id }

/-- The expected derivation for `left-pad`. -/
def exLeftPadDerivation : CrateDerivation :=
  { package_id := "left-pad 1.2.3 (path)", crate_name := "left-pad",
    edition := "2018", authors := ["A Person"], version := "1.2.3",
    source_directory := [".", "."], sha256 := none,
    dependencies := [{ package_id := "once_cell 1.0.0 (registry)", target := none }],
    build_dependencies := [{ package_id := "cc 1.0.0 (registry)", target := some "cfg(unix)" }],
    features := ["default"],
    build := some ["build.rs"], lib_path := some ["src", "lib.rs"],
    has_bin := true, proc_macro := false, is_root_or_workspace_member := true }

/-- The declared dependency that a resolved edge named `name` is matched
with: the *last* declared dependency satisfying the kind predicate whose
normalized name equals the normalized `name` (`HashMap` insertion keeps the
last binding per key). -/
def lastMatch (deps : List Dependency) (f : Dependency → Bool) (name : String) :
    Option Dependency :=
  ((deps.filter f).filter
    (fun d => normalize_package_name name == normalize_package_name d.name)).getLast?

/-- Replace the unspecified (unknown) dependency kind by the normal kind,
leaving everything else unchanged. -/
def promote_unknown (d : Dependency) : Dependency :=
  if d.kind == DependencyKind.unknown then { d with kind := DependencyKind.normal } else d

/-- Substring containment: `sub` occurs contiguously in `s`. -/
def contains_sub (s sub : String) : Prop := ∃ a b, s = a ++ sub ++ b

/-- The `ResolvedDependencies` view that `new` produces for `left-pad`. -/
def exRd : ResolvedDependencies :=
  { node := exNode, packages := [exCc, exOnceCell], dependencies := exLeftPad.dependencies }

/-- Concrete registry package `dep_one`. -/
def ex2Dep : Package :=
  { id := "dep_one 1.0.0 (registry)", name := "dep_one", version := "1.0.0",
    edition := "2018", authors := [],
    manifest_path := ["/", "reg", "dep_one", "Cargo.toml"],
    targets := [], dependencies := [] }

/-- Concrete root package `app`, declaring the *same* name `dep-one` both as
a normal and as a build dependency. -/
def ex2App : Package :=
  { id := "app 0.1.0 (path)", name := "app", version := "0.1.0",
    edition := "2018", authors := [],
    manifest_path := ["/", "root", "Cargo.toml"],
    targets := [],
    dependencies :=
      [{ name := "dep-one", kind := DependencyKind.normal, target := none },
       { name := "dep-one", kind := DependencyKind.build, target := some "cfg(windows)" }] }

/-- The resolve-graph node of `app`, with a single edge to `dep_one`. -/
def ex2Node : Node :=
  { id := "app 0.1.0 (path)", deps := [{ pkg := "dep_one 1.0.0 (registry)" }], features := [] }

/-- Concrete indexed metadata around `app`. -/
def ex2Meta : IndexedMetadata :=
  { root := some "app 0.1.0 (path)",
    workspace_members := [],
    pkgs_by_id := [("app 0.1.0 (path)", ex2App), ("dep_one 1.0.0 (registry)", ex2Dep)],
    nodes_by_id := [("app 0.1.0 (path)", ex2Node)] }

/-- The derivation resolved for `app`: the single edge is matched by *both*
declared kinds, so it appears in both dependency lists. -/
def ex2Derivation : CrateDerivation :=
  { package_id := "app 0.1.0 (path)", crate_name := "app",
    edition := "2018", authors := [], version := "0.1.0",
    source_directory := [".", "."], sha256 := none,
    dependencies := [{ package_id := "dep_one 1.0.0 (registry)", target := none }],
    build_dependencies :=
      [{ package_id := "dep_one 1.0.0 (registry)", target := some "cfg(windows)" }],
    features := [],
    build := none, lib_path := none,
    has_bin := false, proc_macro := false, is_root_or_workspace_member := true }


/-- The exact-match specification of `filtered_dependencies` (used by the
corresponding theorem and its concrete witness): every output entry comes
from a resolved edge package matched by name to a declared dependency
satisfying the predicate and carries that declared dependency's platform
condition; every matchable edge package is emitted; and emitted identifiers
are edge identifiers of the node. -/
def ExactMatchSpec (package : Package) (rd : ResolvedDependencies)
    (f : Dependency → Bool) : Prop :=
  (∀ r ∈ rd.filtered_dependencies f,
      ∃ p ∈ rd.packages, ∃ d ∈ package.dependencies, f d = true ∧
        normalize_package_name d.name = normalize_package_name p.name ∧
        r = { package_id := p.id, target := d.target }) ∧
  (∀ p ∈ rd.packages,
      (∃ d ∈ package.dependencies, f d = true ∧
        normalize_package_name d.name = normalize_package_name p.name) →
      ∃ t, { package_id := p.id, target := t } ∈ rd.filtered_dependencies f) ∧
  (∀ r ∈ rd.filtered_dependencies f, r.package_id ∈ rd.node.deps.map NodeDep.pkg)

theorem charListLe_iff :
    ∀ as bs : List Char, charListLe as bs = true ↔ ¬ List.Lex (· < ·) bs as
  | [], bs => by
    simp only [charListLe]
    constructor
    · intro _ h
      exact List.Lex.not_nil_right _ _ h
    · intro _
      trivial
  | _ :: _, [] => by
    simp only [charListLe]
    constructor
    · intro h
      cases h
    · intro h
      exact absurd List.Lex.nil h
  | a :: as, b :: bs => by
    simp only [charListLe]
    by_cases hab : a.val.toNat < b.val.toNat
    · simp only [hab, if_pos]
      constructor
      · intro _ h
        cases h with
        | cons h' => exact absurd hab (Nat.lt_irrefl _)
        | rel h' =>
          exact absurd hab (Nat.lt_asymm h')
      · intro _
        trivial
    · by_cases hba : b.val.toNat < a.val.toNat
      · simp only [hab, hba, if_neg, if_pos, not_false_eq_true]
        constructor
        · intro h
          cases h
        · intro h
          exact absurd (List.Lex.rel (show b < a from hba)) h
      · simp only [hab, hba, if_neg, not_false_eq_true]
        have hcc : a = b :=
          Char.ext (UInt32.ext
            (Nat.le_antisymm (Nat.le_of_not_lt hba) (Nat.le_of_not_lt hab)))
        subst hcc
        rw [charListLe_iff as bs]
        constructor
        · intro h hlt
          cases hlt with
          | cons h' => exact h h'
          | rel h' => exact absurd h' (Nat.lt_irrefl _)
        · intro h hlt
          exact h (List.Lex.cons hlt)

/-- The executable comparison agrees with the library order on strings. -/
theorem pidLeB_iff (a b : String) : pidLeB a b = true ↔ a ≤ b := by
  rw [pidLeB, charListLe_iff, String.le_iff_toList_le, ← not_lt]
  exact Iff.rfl

/-- `pkgLe` phrased with the library order. -/
theorem pkgLe_iff (p q : Package) : pkgLe p q ↔ p.id ≤ q.id := pidLeB_iff p.id q.id

instance : IsTotal Package pkgLe :=
  ⟨fun a b => by
    rw [pkgLe_iff, pkgLe_iff]
    exact le_total a.id b.id⟩

instance : IsTrans Package pkgLe :=
  ⟨fun a b c h1 h2 => by
    rw [pkgLe_iff] at *
    exact le_trans h1 h2⟩

/-- Sanity evaluations of the concrete instances (the full pipeline reduces
by `rfl`). -/
theorem exLeftPad_resolves :
    CrateDerivation.resolve exCanon exConfig exMeta exLeftPad =
      Except.ok exLeftPadDerivation := by rfl

/-- The reversed-edge metadata resolves to the same derivation. -/
theorem exLeftPad_resolves_rev :
    CrateDerivation.resolve exCanon exConfig exMetaRev exLeftPad =
      Except.ok exLeftPadDerivation := by rfl

/-- `app` resolves with `dep_one` in both lists. -/
theorem ex2App_resolves :
    CrateDerivation.resolve exCanon exConfig ex2Meta ex2App =
      Except.ok ex2Derivation := by rfl

/-- Looking a key up in a key-tagged map is `head?` of the filter. -/
theorem lookup_map_head {α : Type} (key : α → String) (k : String) :
    ∀ m : List α,
      List.lookup k (m.map (fun d => (key d, d))) =
        (m.filter (fun d => k == key d)).head?
  | [] => rfl
  | d :: rest => by
    simp only [List.map_cons, List.lookup_cons, List.filter_cons]
    cases h : k == key d
    · simpa using lookup_map_head key k rest
    · rfl

/-- Looking a key up in the *reversed* key-tagged map — the model of a
`HashMap` collected from the list, where later bindings overwrite earlier
ones — returns the *last* matching element. -/
theorem lookup_reverse_map {α : Type} (key : α → String) (k : String) (l : List α) :
    List.lookup k ((l.map (fun d => (key d, d))).reverse) =
      (l.filter (fun d => k == key d)).getLast? := by
  rw [← List.map_reverse, lookup_map_head, List.filter_reverse, List.head?_reverse]

/-- Closed form of `filtered_dependencies`: one output entry per resolved
edge package whose normalized name matches some declared dependency
satisfying the predicate, pairing the edge's package id with the platform
condition of the last such declared dependency. -/
theorem filtered_dependencies_eq (self : ResolvedDependencies) (f : Dependency → Bool) :
    self.filtered_dependencies f =
      self.packages.filterMap (fun p =>
        (lastMatch self.dependencies f p.name).map
          (fun dependency => { package_id := p.id, target := dependency.target })) := by
  unfold ResolvedDependencies.filtered_dependencies lastMatch dependency_names
  congr 1
  funext p
  rw [lookup_reverse_map (fun d : Dependency => normalize_package_name d.name)]

/-- Success of the edge-package collection is elementwise lookup success. -/
theorem collect_packages_ok_iff (metadata : IndexedMetadata) (package : Package)
    (node : Node) :
    ∀ (deps : List NodeDep) (ps : List Package),
      collect_packages metadata package node deps = .ok ps ↔
        List.Forall₂ (fun d p => List.lookup d.pkg metadata.pkgs_by_id = some p) deps ps
  | [], ps => by
    constructor
    · intro h
      cases h
      exact List.Forall₂.nil
    · intro h
      cases h
      rfl
  | d :: rest, ps => by
    constructor
    · intro h
      simp only [collect_packages] at h
      split at h
      · cases h
      · rename_i p hl
        split at h
        · cases h
        · rename_i ps' hr
          cases h
          exact List.Forall₂.cons hl
            ((collect_packages_ok_iff metadata package node rest ps').mp hr)
    · intro h
      cases h with
      | cons hl hrest =>
        simp only [collect_packages, hl,
          (collect_packages_ok_iff metadata package node rest _).mpr hrest]

/-- An error of the edge-package collection pinpoints a dangling edge and
is the corresponding message. -/
theorem collect_packages_error_inv (metadata : IndexedMetadata) (package : Package)
    (node : Node) :
    ∀ (deps : List NodeDep) (e : String),
      collect_packages metadata package node deps = .error e →
        ∃ d ∈ deps, List.lookup d.pkg metadata.pkgs_by_id = none ∧
          e = missing_package_error d.pkg package node
  | [], e => by
    intro h
    cases h
  | d :: rest, e => by
    intro h
    simp only [collect_packages] at h
    split at h
    · rename_i hl
      cases h
      exact ⟨d, List.mem_cons_self d rest, hl, rfl⟩
    · rename_i p hl
      split at h
      · rename_i e2 hr
        cases h
        obtain ⟨d', hd', hnone, hmsg⟩ :=
          collect_packages_error_inv metadata package node rest _ hr
        exact ⟨d', List.mem_cons_of_mem d hd', hnone, hmsg⟩
      · cases h

/-- A dangling edge forces the collection to fail. -/
theorem collect_packages_error_of_missing (metadata : IndexedMetadata) (package : Package)
    (node : Node) :
    ∀ (deps : List NodeDep), (∃ d ∈ deps, List.lookup d.pkg metadata.pkgs_by_id = none) →
      ∃ e, collect_packages metadata package node deps = .error e
  | [], h => absurd h (by simp)
  | d :: rest, h => by
    simp only [collect_packages]
    cases hl : List.lookup d.pkg metadata.pkgs_by_id with
    | none => exact ⟨missing_package_error d.pkg package node, rfl⟩
    | some p =>
      obtain ⟨d', hd', hnone⟩ := h
      rcases List.mem_cons.mp hd' with rfl | hd'
      · rw [hl] at hnone
        cases hnone
      · obtain ⟨e, he⟩ :=
          collect_packages_error_of_missing metadata package node rest ⟨d', hd', hnone⟩
        rw [he]
        exact ⟨e, rfl⟩

/-- Inversion of a successful `ResolvedDependencies::new`. -/
theorem new_ok_inv (metadata : IndexedMetadata) (package : Package)
    (rd : ResolvedDependencies)
    (h : ResolvedDependencies.new metadata package = .ok rd) :
    List.lookup package.id metadata.nodes_by_id = some rd.node ∧
      rd.dependencies = package.dependencies ∧
      ∃ ps, collect_packages metadata package rd.node rd.node.deps = .ok ps ∧
        rd.packages = List.insertionSort pkgLe ps := by
  unfold ResolvedDependencies.new at h
  split at h
  · cases h
  · rename_i node hn
    split at h
    · cases h
    · rename_i ps hc
      cases h
      exact ⟨hn, rfl, ps, hc, rfl⟩

/-- A `Forall₂` along an `Option`-valued function pins the right list down
as a `filterMap` of the left one. -/
theorem forall2_eq_filterMap {α β : Type} (g : α → Option β) :
    ∀ {l : List α} {l' : List β},
      List.Forall₂ (fun a b => g a = some b) l l' → l' = l.filterMap g
  | [], _, h => by cases h; rfl
  | a :: as, _, h => by
    cases h with
    | cons ha hrest =>
      rw [List.filterMap_cons, ha, forall2_eq_filterMap g hrest]

/-- `Pairwise` is transported through `filterMap`. -/
theorem pairwise_filterMap_of_pairwise {α β : Type} (g : α → Option β)
    {R : α → α → Prop} {S : β → β → Prop}
    (hg : ∀ a b c d, R a b → g a = some c → g b = some d → S c d) :
    ∀ {l : List α}, l.Pairwise R → (l.filterMap g).Pairwise S
  | [], _ => by simp
  | a :: as, h => by
    rw [List.pairwise_cons] at h
    rw [List.filterMap_cons]
    cases hga : g a with
    | none => exact pairwise_filterMap_of_pairwise g hg h.2
    | some c =>
      rw [List.pairwise_cons]
      refine ⟨?_, pairwise_filterMap_of_pairwise g hg h.2⟩
      intro d hd
      obtain ⟨b, hb, hgb⟩ := List.mem_filterMap.mp hd
      exact hg a b c d (h.1 b hb) hga hgb

/-- Two sorted permutations of each other are equal when members with equal
identifiers are equal. -/
theorem eq_of_perm_of_sorted_pkg :
    ∀ {l₁ l₂ : List Package}, l₁.Perm l₂ → l₁.Pairwise pkgLe → l₂.Pairwise pkgLe →
      (∀ x ∈ l₁, ∀ y ∈ l₁, x.id = y.id → x = y) → l₁ = l₂
  | [], l₂, hperm, _, _, _ => hperm.nil_eq
  | x :: xs, [], hperm, _, _, _ => by
    have := hperm.length_eq
    simp at this
  | x :: xs, y :: ys, hperm, hs₁, hs₂, hinj => by
    have hy1 : y ∈ x :: xs := hperm.symm.subset (List.mem_cons_self y ys)
    have hx2 : x ∈ y :: ys := hperm.subset (List.mem_cons_self x xs)
    have hxy : x = y := by
      by_cases hc : x = y
      · exact hc
      · have hyx : y ∈ xs := (List.mem_cons.mp hy1).resolve_left (fun h => hc h.symm)
        have hxy' : x ∈ ys := (List.mem_cons.mp hx2).resolve_left hc
        have h₁ : pkgLe x y := (List.pairwise_cons.mp hs₁).1 y hyx
        have h₂ : pkgLe y x := (List.pairwise_cons.mp hs₂).1 x hxy'
        have hid : x.id = y.id :=
          le_antisymm ((pkgLe_iff x y).mp h₁) ((pkgLe_iff y x).mp h₂)
        exact hinj x (List.mem_cons_self x xs) y hy1 hid
    subst hxy
    have htail : xs.Perm ys := hperm.cons_inv
    have : xs = ys :=
      eq_of_perm_of_sorted_pkg htail (List.pairwise_cons.mp hs₁).2
        (List.pairwise_cons.mp hs₂).2
        (fun a ha b hb h =>
          hinj a (List.mem_cons_of_mem x ha) b (List.mem_cons_of_mem x hb) h)
    rw [this]

/-- Inversion of a successful `CrateDerivation::resolve`: every field of the
output record in terms of the inputs. -/
theorem resolve_ok_inv (canonicalize : PathBuf → Except String PathBuf)
    (config : GenerateConfig) (metadata : IndexedMetadata) (package : Package)
    (cd : CrateDerivation)
    (h : CrateDerivation.resolve canonicalize config metadata package = .ok cd) :
    ∃ rd package_path canonical config_directory,
      ResolvedDependencies.new metadata package = .ok rd ∧
      PathBuf.parent package.manifest_path = some package_path ∧
      canonicalize config.cargo_toml = .ok canonical ∧
      PathBuf.parent canonical = some config_directory ∧
      cd = { crate_name := package.name
             edition := package.edition
             authors := package.authors
             package_id := package.id
             version := package.version
             sha256 := none
             source_directory :=
               if package_path = config_directory then
                 [".", "."]
               else
                 let path :=
                   (diff_paths package_path config_directory).getD package_path
                 if path.head? = some ".." then path
                 else "." :: path
             features := rd.node.features
             dependencies := rd.filtered_dependencies normal_dep_filter
             build_dependencies := rd.filtered_dependencies build_dep_filter
             build :=
               (package.targets.find?
                   (fun t => t.kind.any (fun k => k == "custom-build"))).bind
                 (fun target => PathBuf.stripBase target.src_path package_path)
             lib_path :=
               (package.targets.find?
                   (fun t => t.kind.any (fun k => k == "lib"))).bind
                 (fun target => PathBuf.stripBase target.src_path package_path)
             proc_macro :=
               package.targets.any (fun t => t.kind.any (fun k => k == "proc-macro"))
             has_bin :=
               package.targets.any (fun t => t.kind.any (fun k => k == "bin"))
             is_root_or_workspace_member :=
               (metadata.root.toList ++ metadata.workspace_members).any
                 (fun pkg_id => pkg_id == package.id) } := by
  unfold CrateDerivation.resolve at h
  split at h
  · cases h
  · rename_i rd hnew
    split at h
    · cases h
    · rename_i package_path hpp
      split at h
      · cases h
      · rename_i canonical hcanon
        split at h
        · cases h
        · rename_i config_directory hcfg
          cases h
          exact ⟨rd, package_path, canonical, config_directory, hnew, hpp, hcanon, hcfg, rfl⟩

/-- A successful lookup's binding is a member of the association list. -/
theorem lookup_mem {β : Type} (k : String) : ∀ (l : List (String × β)) (p : β),
    List.lookup k l = some p → (k, p) ∈ l
  | [], p, h => by cases h
  | (a, b) :: es, p, h => by
    rw [List.lookup_cons] at h
    cases hk : k == a with
    | true =>
      rw [hk] at h
      cases h
      have : k = a := by simpa using hk
      subst this
      exact List.mem_cons_self _ _
    | false =>
      rw [hk] at h
      exact List.mem_cons_of_mem _ (lookup_mem k es p h)

/-- Left-to-right membership transport along an `Option`-valued `Forall₂`. -/
theorem forall2_opt_mem_left {α β : Type} (g : α → Option β) :
    ∀ {l : List α} {l' : List β},
      List.Forall₂ (fun a b => g a = some b) l l' →
        ∀ a ∈ l, ∃ b, g a = some b ∧ b ∈ l'
  | [], _, _, a, ha => absurd ha (List.not_mem_nil a)
  | x :: xs, _, h, a, ha => by
    cases h with
    | cons hx hrest =>
      rcases List.mem_cons.mp ha with rfl | ha
      · exact ⟨_, hx, List.mem_cons_self _ _⟩
      · obtain ⟨b, hb, hbmem⟩ := forall2_opt_mem_left g hrest a ha
        exact ⟨b, hb, List.mem_cons_of_mem _ hbmem⟩

/-- In a consistently indexed package map, a successful lookup returns a
package bearing the looked-up identifier. -/
theorem lookup_id_of_wf (metadata : IndexedMetadata)
    (hwf : ∀ kp ∈ metadata.pkgs_by_id, kp.2.id = kp.1) (k : PackageId) (p : Package)
    (h : List.lookup k metadata.pkgs_by_id = some p) : p.id = k :=
  hwf (k, p) (lookup_mem k metadata.pkgs_by_id p h)

/-- Members of a successful `new`'s package list are exactly lookups of the
node's edges. -/
theorem new_packages_mem (metadata : IndexedMetadata) (package : Package)
    (rd : ResolvedDependencies)
    (h : ResolvedDependencies.new metadata package = .ok rd) :
    ∀ p ∈ rd.packages, ∃ d ∈ rd.node.deps,
      List.lookup d.pkg metadata.pkgs_by_id = some p := by
  obtain ⟨-, -, ps, hc, hps⟩ := new_ok_inv metadata package rd h
  intro p hp
  rw [hps, List.mem_insertionSort] at hp
  have := (collect_packages_ok_iff metadata package rd.node rd.node.deps ps).mp hc
  rw [forall2_eq_filterMap _ this] at hp
  obtain ⟨d, hd, hlook⟩ := List.mem_filterMap.mp hp
  exact ⟨d, hd, hlook⟩

/-- A successful `new` sorts its package list by package identifier. -/
theorem new_packages_sorted (metadata : IndexedMetadata) (package : Package)
    (rd : ResolvedDependencies)
    (h : ResolvedDependencies.new metadata package = .ok rd) :
    rd.packages.Pairwise pkgLe := by
  obtain ⟨-, -, ps, hc, hps⟩ := new_ok_inv metadata package rd h
  rw [hps]
  exact List.sorted_insertionSort pkgLe ps

/-- Two members of a successful `new`'s package list with equal identifiers
are equal (in a consistently indexed graph). -/
theorem new_packages_id_inj (metadata : IndexedMetadata) (package : Package)
    (rd : ResolvedDependencies)
    (hwf : ∀ kp ∈ metadata.pkgs_by_id, kp.2.id = kp.1)
    (h : ResolvedDependencies.new metadata package = .ok rd) :
    ∀ x ∈ rd.packages, ∀ y ∈ rd.packages, x.id = y.id → x = y := by
  intro x hx y hy hid
  obtain ⟨dx, -, hlx⟩ := new_packages_mem metadata package rd h x hx
  obtain ⟨dy, -, hly⟩ := new_packages_mem metadata package rd h y hy
  have hxid : x.id = dx.pkg := lookup_id_of_wf metadata hwf dx.pkg x hlx
  have hyid : y.id = dy.pkg := lookup_id_of_wf metadata hwf dy.pkg y hly
  have : dx.pkg = dy.pkg := by rw [← hxid, ← hyid, hid]
  rw [this, hly] at hlx
  cases hlx
  rfl

/-- What a successful `lastMatch` guarantees about the matched declared
dependency. -/
theorem lastMatch_some_spec (deps : List Dependency) (f : Dependency → Bool)
    (name : String) (d : Dependency) (h : lastMatch deps f name = some d) :
    d ∈ deps ∧ f d = true ∧
      normalize_package_name d.name = normalize_package_name name := by
  have hmem := List.mem_of_mem_getLast? h
  rw [List.mem_filter] at hmem
  obtain ⟨hmem1, hbeq⟩ := hmem
  rw [List.mem_filter] at hmem1
  refine ⟨hmem1.1, hmem1.2, ?_⟩
  have : normalize_package_name name = normalize_package_name d.name := by simpa using hbeq
  exact this.symm

/-- A declared dependency of the right kind and name forces `lastMatch` to
succeed. -/
theorem lastMatch_isSome (deps : List Dependency) (f : Dependency → Bool)
    (name : String) (d : Dependency) (hd : d ∈ deps) (hf : f d = true)
    (hn : normalize_package_name d.name = normalize_package_name name) :
    ∃ d', lastMatch deps f name = some d' := by
  have hmem : d ∈ (deps.filter f).filter
      (fun d => normalize_package_name name == normalize_package_name d.name) := by
    rw [List.mem_filter]
    refine ⟨List.mem_filter.mpr ⟨hd, hf⟩, ?_⟩
    simpa using hn.symm
  have hne := List.ne_nil_of_mem hmem
  obtain ⟨d', hd'⟩ := Option.isSome_iff_exists.mp (List.getLast?_isSome.mpr hne)
  exact ⟨d', hd'⟩

/-- Membership characterization of `filtered_dependencies`. -/
theorem mem_filtered_dependencies (self : ResolvedDependencies)
    (f : Dependency → Bool) (r : ResolvedDependency) :
    r ∈ self.filtered_dependencies f ↔
      ∃ p ∈ self.packages, ∃ d, lastMatch self.dependencies f p.name = some d ∧
        r = { package_id := p.id, target := d.target } := by
  rw [filtered_dependencies_eq, List.mem_filterMap]
  constructor
  · rintro ⟨p, hp, hmap⟩
    obtain ⟨d, hd, hr⟩ := Option.map_eq_some'.mp hmap
    exact ⟨p, hp, d, hd, hr.symm⟩
  · rintro ⟨p, hp, d, hd, hr⟩
    exact ⟨p, hp, by rw [hd, hr]; rfl⟩

/-- C5: package-name normalization is idempotent
(`normalize(normalize(s)) == normalize(s)` for every string) and identifies
`-` with `_`: `normalize("foo-bar") == normalize("foo_bar") == "foo_bar"`. -/
theorem normalize_package_name_idempotent_dash_underscore :
    (∀ s : String,
        normalize_package_name (normalize_package_name s) = normalize_package_name s) ∧
    normalize_package_name "foo-bar" = "foo_bar" ∧
    normalize_package_name "foo_bar" = "foo_bar" ∧
    normalize_package_name "foo-bar" = normalize_package_name "foo_bar" := by
  refine ⟨?_, by decide, by decide, by decide⟩
  intro s
  unfold normalize_package_name
  have hcomp : ((fun c : Char => if c == '-' then '_' else c) ∘
      (fun c : Char => if c == '-' then '_' else c)) =
      (fun c : Char => if c == '-' then '_' else c) := by
    funext c
    by_cases h : c = '-'
    · subst h
      rfl
    · have hb : (c == '-') = false := by simpa using h
      simp [Function.comp, hb]
  show String.mk (List.map _ (String.toList (String.mk _))) = _
  rw [show ∀ l : List Char, String.toList (String.mk l) = l from fun _ => rfl,
    List.map_map, hcomp]

/-- C10: when several declared dependencies satisfying the predicate
normalize to the same name, the matching map keeps exactly the one occurring
last in the declared-dependency list (`HashMap` insertion overwrites), so
every matching resolved edge is emitted with that last entry's platform
condition — `lastMatch` is literally the last satisfying entry of the
declared list with the matching normalized name. -/
theorem filtered_dependencies_last_declaration_wins (self : ResolvedDependencies)
    (f : Dependency → Bool) :
    self.filtered_dependencies f =
      self.packages.filterMap (fun p =>
        (lastMatch self.dependencies f p.name).map
          (fun d => { package_id := p.id, target := d.target })) :=
  filtered_dependencies_eq self f

/-- The missing-node message contains the requesting package identifier. -/
theorem missing_node_error_contains (package : Package) :
    contains_sub (missing_node_error package) package.id :=
  ⟨"Could not find node for ",
   ".\n-- Package\n" ++ to_string_pretty_package package,
   by simp [missing_node_error, String.append_assoc]⟩

/-- The dangling-edge message contains the offending identifier. -/
theorem missing_package_error_contains_dep (dep_pkg : PackageId) (package : Package)
    (node : Node) : contains_sub (missing_package_error dep_pkg package node) dep_pkg :=
  ⟨"No matching package for dependency with package id ",
   " in " ++ package.id ++ ".\n-- Package\n" ++ to_string_pretty_package package ++
     "\n-- Node\n" ++ to_string_pretty_node node,
   by simp [missing_package_error, String.append_assoc]⟩

/-- The dangling-edge message contains the requesting package identifier. -/
theorem missing_package_error_contains_req (dep_pkg : PackageId) (package : Package)
    (node : Node) : contains_sub (missing_package_error dep_pkg package node) package.id :=
  ⟨"No matching package for dependency with package id " ++ dep_pkg ++ " in ",
   ".\n-- Package\n" ++ to_string_pretty_package package ++
     "\n-- Node\n" ++ to_string_pretty_node node,
   by simp [missing_package_error, String.append_assoc]⟩

/-- C3: `ResolvedDependencies::new` fails exactly when the package has no
graph node or some edge references an identifier absent from the package
index; the error message carries the offending identifier and the
requesting package identifier; and on success the held packages are
complete for all edges. -/
theorem new_error_exactly_graph_inconsistency (metadata : IndexedMetadata)
    (package : Package) :
    ((∃ e, ResolvedDependencies.new metadata package = .error e) ↔
      (List.lookup package.id metadata.nodes_by_id = none ∨
        ∃ node, List.lookup package.id metadata.nodes_by_id = some node ∧
          ∃ d ∈ node.deps, List.lookup d.pkg metadata.pkgs_by_id = none)) ∧
    (∀ e, ResolvedDependencies.new metadata package = .error e →
      contains_sub e package.id ∧
      ∃ offending, contains_sub e offending ∧
        ((List.lookup package.id metadata.nodes_by_id = none ∧ offending = package.id) ∨
          (∃ node, List.lookup package.id metadata.nodes_by_id = some node ∧
            ∃ d ∈ node.deps, d.pkg = offending ∧
              List.lookup offending metadata.pkgs_by_id = none))) ∧
    (∀ rd, ResolvedDependencies.new metadata package = .ok rd →
      ∀ d ∈ rd.node.deps, ∃ p, List.lookup d.pkg metadata.pkgs_by_id = some p ∧
        p ∈ rd.packages) := by
  refine ⟨⟨?_, ?_⟩, ?_, ?_⟩
  · rintro ⟨e, he⟩
    unfold ResolvedDependencies.new at he
    split at he
    · rename_i hn
      exact Or.inl hn
    · rename_i node hn
      split at he
      · rename_i e2 hc
        obtain ⟨d, hd, hnone, -⟩ :=
          collect_packages_error_inv metadata package node node.deps _ hc
        exact Or.inr ⟨node, hn, d, hd, hnone⟩
      · cases he
  · intro h
    rcases h with hn | ⟨node, hn, hdangling⟩
    · exact ⟨missing_node_error package, by simp [ResolvedDependencies.new, hn]⟩
    · obtain ⟨e, he⟩ :=
        collect_packages_error_of_missing metadata package node node.deps hdangling
      exact ⟨e, by simp [ResolvedDependencies.new, hn, he]⟩
  · intro e he
    unfold ResolvedDependencies.new at he
    split at he
    · rename_i hn
      cases he
      exact ⟨missing_node_error_contains package,
        package.id, missing_node_error_contains package, Or.inl ⟨hn, rfl⟩⟩
    · rename_i node hn
      split at he
      · rename_i e2 hc
        cases he
        obtain ⟨d, hd, hnone, hmsg⟩ :=
          collect_packages_error_inv metadata package node node.deps _ hc
        subst hmsg
        exact ⟨missing_package_error_contains_req d.pkg package node,
          d.pkg, missing_package_error_contains_dep d.pkg package node,
          Or.inr ⟨node, hn, d, hd, rfl, hnone⟩⟩
      · cases he
  · intro rd h d hd
    obtain ⟨-, -, ps, hc, hps⟩ := new_ok_inv metadata package rd h
    have hfa := (collect_packages_ok_iff metadata package rd.node rd.node.deps ps).mp hc
    obtain ⟨p, hlook, hpmem⟩ :=
      forall2_opt_mem_left (fun d => List.lookup d.pkg metadata.pkgs_by_id) hfa d hd
    exact ⟨p, hlook, by rw [hps, List.mem_insertionSort]; exact hpmem⟩

/-- C1: for every package and predicate over declared-dependency kind,
`filtered_dependencies` returns exactly those resolved edges whose
normalized name equals the normalized name of a declared dependency
satisfying the predicate (pairing the edge's package identifier with the
matched declared dependency's platform condition); unmatched edges are
silently excluded; the returned identifiers are a subset of the node's edge
identifiers. -/
theorem filtered_dependencies_exact (metadata : IndexedMetadata) (package : Package)
    (rd : ResolvedDependencies) (f : Dependency → Bool)
    (hwf : ∀ kp ∈ metadata.pkgs_by_id, kp.2.id = kp.1)
    (hnew : ResolvedDependencies.new metadata package = .ok rd) :
    ExactMatchSpec package rd f := by
  have hdeps : rd.dependencies = package.dependencies :=
    (new_ok_inv metadata package rd hnew).2.1
  refine ⟨?_, ?_, ?_⟩
  · intro r hr
    obtain ⟨p, hp, d, hlast, hreq⟩ := (mem_filtered_dependencies rd f r).mp hr
    obtain ⟨hdmem, hf, hn⟩ := lastMatch_some_spec rd.dependencies f p.name d hlast
    exact ⟨p, hp, d, hdeps ▸ hdmem, hf, hn, hreq⟩
  · rintro p hp ⟨d, hd, hf, hn⟩
    obtain ⟨d', hd'⟩ :=
      lastMatch_isSome rd.dependencies f p.name d (hdeps ▸ hd) hf hn
    exact ⟨d'.target, (mem_filtered_dependencies rd f _).mpr ⟨p, hp, d', hd', rfl⟩⟩
  · intro r hr
    obtain ⟨p, hp, d, hlast, hreq⟩ := (mem_filtered_dependencies rd f r).mp hr
    obtain ⟨dep, hdep, hlook⟩ := new_packages_mem metadata package rd hnew p hp
    have hid : p.id = dep.pkg := lookup_id_of_wf metadata hwf dep.pkg p hlook
    rw [hreq]
    exact List.mem_map.mpr ⟨dep, hdep, hid.symm⟩

/-- Witness for C1 at the concrete `left-pad` instance. -/
theorem filtered_dependencies_exact_witness :
    (∀ kp ∈ exMeta.pkgs_by_id, kp.2.id = kp.1) ∧
    ResolvedDependencies.new exMeta exLeftPad = .ok exRd ∧
    ExactMatchSpec exLeftPad exRd normal_dep_filter :=
  ⟨by decide, by rfl,
   filtered_dependencies_exact exMeta exLeftPad exRd normal_dep_filter (by decide) (by rfl)⟩

/-- C8: the membership flag is set iff the package identifier is the
declared root or a workspace member. -/
theorem is_root_or_workspace_member_iff (canonicalize : PathBuf → Except String PathBuf)
    (config : GenerateConfig) (metadata : IndexedMetadata) (package : Package)
    (cd : CrateDerivation)
    (h : CrateDerivation.resolve canonicalize config metadata package = .ok cd) :
    cd.is_root_or_workspace_member = true ↔
      metadata.root = some package.id ∨ package.id ∈ metadata.workspace_members := by
  obtain ⟨rd, pp, canonical, cfg, -, -, -, -, hcd⟩ :=
    resolve_ok_inv canonicalize config metadata package cd h
  subst hcd
  show (metadata.root.toList ++ metadata.workspace_members).any
      (fun pkg_id => pkg_id == package.id) = true ↔ _
  rw [List.any_eq_true]
  constructor
  · rintro ⟨x, hx, hbeq⟩
    have hxeq : x = package.id := by simpa using hbeq
    subst hxeq
    rcases List.mem_append.mp hx with hx | hx
    · exact Or.inl (by simpa using hx)
    · exact Or.inr hx
  · rintro (hroot | hws)
    · exact ⟨package.id, List.mem_append.mpr (Or.inl (by simp [hroot])), by simp⟩
    · exact ⟨package.id, List.mem_append.mpr (Or.inr hws), by simp⟩

/-- Witness for C8 at the concrete `left-pad` instance. -/
theorem is_root_or_workspace_member_iff_witness :
    CrateDerivation.resolve exCanon exConfig exMeta exLeftPad = .ok exLeftPadDerivation ∧
    (exLeftPadDerivation.is_root_or_workspace_member = true ↔
      exMeta.root = some exLeftPad.id ∨ exLeftPad.id ∈ exMeta.workspace_members) :=
  ⟨by rfl,
   is_root_or_workspace_member_iff exCanon exConfig exMeta exLeftPad exLeftPadDerivation (by rfl)⟩

/-- C7: the library entry path is the source path of the first target
tagged `lib` relative to the manifest directory (and likewise `custom-build`
for the build script); a selected target whose source path cannot be
expressed relative to the manifest directory yields `none` rather than an
error; `has_bin` holds iff some target is tagged `bin`; `proc_macro` holds
iff some target is tagged `proc-macro`. -/
theorem target_classification (canonicalize : PathBuf → Except String PathBuf)
    (config : GenerateConfig) (metadata : IndexedMetadata) (package : Package)
    (cd : CrateDerivation) (package_path : PathBuf)
    (h : CrateDerivation.resolve canonicalize config metadata package = .ok cd)
    (hpp : PathBuf.parent package.manifest_path = some package_path) :
    cd.lib_path =
      (package.targets.find? (fun t => t.kind.any (fun k => k == "lib"))).bind
        (fun t => PathBuf.stripBase t.src_path package_path) ∧
    cd.build =
      (package.targets.find? (fun t => t.kind.any (fun k => k == "custom-build"))).bind
        (fun t => PathBuf.stripBase t.src_path package_path) ∧
    (cd.has_bin = true ↔ ∃ t ∈ package.targets, "bin" ∈ t.kind) ∧
    (cd.proc_macro = true ↔ ∃ t ∈ package.targets, "proc-macro" ∈ t.kind) := by
  obtain ⟨rd, pp, canonical, cfg, -, hpp', -, -, hcd⟩ :=
    resolve_ok_inv canonicalize config metadata package cd h
  rw [hpp'] at hpp
  cases hpp
  subst hcd
  refine ⟨rfl, rfl, ?_, ?_⟩
  · show package.targets.any (fun t => t.kind.any (fun k => k == "bin")) = true ↔ _
    simp [List.any_eq_true]
  · show package.targets.any (fun t => t.kind.any (fun k => k == "proc-macro")) = true ↔ _
    simp [List.any_eq_true]

/-- Witness for C7 at the concrete `left-pad` instance. -/
theorem target_classification_witness :
    CrateDerivation.resolve exCanon exConfig exMeta exLeftPad = .ok exLeftPadDerivation ∧
    PathBuf.parent exLeftPad.manifest_path = some ["/", "root"] ∧
    (exLeftPadDerivation.lib_path =
      (exLeftPad.targets.find? (fun t => t.kind.any (fun k => k == "lib"))).bind
        (fun t => PathBuf.stripBase t.src_path ["/", "root"]) ∧
    exLeftPadDerivation.build =
      (exLeftPad.targets.find? (fun t => t.kind.any (fun k => k == "custom-build"))).bind
        (fun t => PathBuf.stripBase t.src_path ["/", "root"]) ∧
    (exLeftPadDerivation.has_bin = true ↔ ∃ t ∈ exLeftPad.targets, "bin" ∈ t.kind) ∧
    (exLeftPadDerivation.proc_macro = true ↔ ∃ t ∈ exLeftPad.targets, "proc-macro" ∈ t.kind)) :=
  ⟨by rfl, by rfl,
   target_classification exCanon exConfig exMeta exLeftPad exLeftPadDerivation
     ["/", "root"] (by rfl) (by rfl)⟩

/-- C4: the source directory is `./.` when the package's manifest directory
equals the canonicalized configured root; otherwise it is the path
difference from the root to the package directory, kept unmodified when it
starts by ascending out of the root and prefixed with `./` otherwise. -/
theorem source_directory_mapping (canonicalize : PathBuf → Except String PathBuf)
    (config : GenerateConfig) (metadata : IndexedMetadata) (package : Package)
    (cd : CrateDerivation) (package_path canonical config_directory : PathBuf)
    (h : CrateDerivation.resolve canonicalize config metadata package = .ok cd)
    (hpp : PathBuf.parent package.manifest_path = some package_path)
    (hcanon : canonicalize config.cargo_toml = .ok canonical)
    (hcfg : PathBuf.parent canonical = some config_directory) :
    (package_path = config_directory → cd.source_directory = [".", "."]) ∧
    (package_path ≠ config_directory →
      ∀ dp, diff_paths package_path config_directory = some dp →
        cd.source_directory = if dp.head? = some ".." then dp else "." :: dp) := by
  obtain ⟨rd, pp, canonical', cfg, -, hpp', hcanon', hcfg', hcd⟩ :=
    resolve_ok_inv canonicalize config metadata package cd h
  rw [hpp'] at hpp
  cases hpp
  rw [hcanon'] at hcanon
  cases hcanon
  rw [hcfg'] at hcfg
  cases hcfg
  subst hcd
  constructor
  · intro heq
    show (if package_path = config_directory then _ else _) = _
    rw [if_pos heq]
  · intro hne dp hdp
    show (if package_path = config_directory then _ else _) = _
    rw [if_neg hne]
    simp only [hdp, Option.getD_some]

/-- Witness for C4 at the concrete `left-pad` instance (manifest directory
equals the configured root). -/
theorem source_directory_mapping_witness :
    CrateDerivation.resolve exCanon exConfig exMeta exLeftPad = .ok exLeftPadDerivation ∧
    PathBuf.parent exLeftPad.manifest_path = some ["/", "root"] ∧
    exCanon exConfig.cargo_toml = .ok ["/", "root", "Cargo.toml"] ∧
    PathBuf.parent ["/", "root", "Cargo.toml"] = some ["/", "root"] ∧
    ((["/", "root"] : PathBuf) = ["/", "root"] →
      exLeftPadDerivation.source_directory = [".", "."]) :=
  ⟨by rfl, by rfl, by rfl, by rfl,
   (source_directory_mapping exCanon exConfig exMeta exLeftPad exLeftPadDerivation
     ["/", "root"] ["/", "root", "Cargo.toml"] ["/", "root"]
     (by rfl) (by rfl) (by rfl) (by rfl)).1⟩

theorem band_nondev_build (d : Dependency) :
    (build_dep_filter d && !(d.kind == DependencyKind.development)) = build_dep_filter d := by
  rcases d with ⟨n, k, t⟩
  cases k <;> rfl

theorem band_nondev_normal (d : Dependency) :
    (normal_dep_filter d && !(d.kind == DependencyKind.development)) = normal_dep_filter d := by
  rcases d with ⟨n, k, t⟩
  cases k <;> rfl

theorem promote_unknown_name (d : Dependency) : (promote_unknown d).name = d.name := by
  unfold promote_unknown
  split <;> rfl

theorem promote_unknown_target (d : Dependency) :
    (promote_unknown d).target = d.target := by
  unfold promote_unknown
  split <;> rfl

theorem build_dep_filter_promote (d : Dependency) :
    build_dep_filter (promote_unknown d) = build_dep_filter d := by
  rcases d with ⟨n, k, t⟩
  cases k <;> rfl

theorem normal_dep_filter_promote (d : Dependency) :
    normal_dep_filter (promote_unknown d) = normal_dep_filter d := by
  rcases d with ⟨n, k, t⟩
  cases k <;> rfl

/-- Removing development-kind declared dependencies does not change the
matching map. -/
theorem lastMatch_filter_nondev (deps : List Dependency) (f : Dependency → Bool)
    (name : String)
    (hf : ∀ d, (f d && !(d.kind == DependencyKind.development)) = f d) :
    lastMatch (deps.filter (fun d => !(d.kind == DependencyKind.development))) f name =
      lastMatch deps f name := by
  unfold lastMatch
  simp only [List.filter_filter]
  exact congrArg List.getLast? (List.filter_congr fun a _ => by rw [hf a])

/-- Replacing the unknown kind by the normal kind does not change which
entry the matching map retains (up to the replacement itself). -/
theorem lastMatch_map_promote (deps : List Dependency) (f : Dependency → Bool)
    (name : String) (hf : ∀ d, f (promote_unknown d) = f d) :
    lastMatch (deps.map promote_unknown) f name =
      (lastMatch deps f name).map promote_unknown := by
  unfold lastMatch
  rw [List.filter_map]
  have h1 : deps.filter (f ∘ promote_unknown) = deps.filter f :=
    List.filter_congr fun a _ => hf a
  rw [h1, List.filter_map]
  have h2 : (deps.filter f).filter
        ((fun d => normalize_package_name name == normalize_package_name d.name) ∘
          promote_unknown) =
      (deps.filter f).filter
        (fun d => normalize_package_name name == normalize_package_name d.name) :=
    List.filter_congr fun a _ => by
      show (normalize_package_name name ==
        normalize_package_name (promote_unknown a).name) = _
      rw [promote_unknown_name]
  rw [h2, List.getLast?_map]

/-- C9: development-kind declared dependencies contribute to neither output
list, and an unknown-kind declared dependency is matched into the normal
list exactly as a normal-kind one would be (and stays out of the build
list). -/
theorem development_ignored_unknown_as_normal (self : ResolvedDependencies) :
    ResolvedDependencies.filtered_dependencies
        { self with dependencies :=
            self.dependencies.filter (fun d => !(d.kind == DependencyKind.development)) }
        build_dep_filter = self.filtered_dependencies build_dep_filter ∧
    ResolvedDependencies.filtered_dependencies
        { self with dependencies :=
            self.dependencies.filter (fun d => !(d.kind == DependencyKind.development)) }
        normal_dep_filter = self.filtered_dependencies normal_dep_filter ∧
    ResolvedDependencies.filtered_dependencies
        { self with dependencies := self.dependencies.map promote_unknown }
        build_dep_filter = self.filtered_dependencies build_dep_filter ∧
    ResolvedDependencies.filtered_dependencies
        { self with dependencies := self.dependencies.map promote_unknown }
        normal_dep_filter = self.filtered_dependencies normal_dep_filter := by
  refine ⟨?_, ?_, ?_, ?_⟩
  · rw [filtered_dependencies_eq, filtered_dependencies_eq]
    dsimp only
    congr 1
    funext p
    rw [lastMatch_filter_nondev self.dependencies build_dep_filter p.name band_nondev_build]
  · rw [filtered_dependencies_eq, filtered_dependencies_eq]
    dsimp only
    congr 1
    funext p
    rw [lastMatch_filter_nondev self.dependencies normal_dep_filter p.name band_nondev_normal]
  · rw [filtered_dependencies_eq, filtered_dependencies_eq]
    dsimp only
    congr 1
    funext p
    rw [lastMatch_map_promote self.dependencies build_dep_filter p.name
      build_dep_filter_promote]
    cases lastMatch self.dependencies build_dep_filter p.name with
    | none => rfl
    | some d => simp [promote_unknown_target]
  · rw [filtered_dependencies_eq, filtered_dependencies_eq]
    dsimp only
    congr 1
    funext p
    rw [lastMatch_map_promote self.dependencies normal_dep_filter p.name
      normal_dep_filter_promote]
    cases lastMatch self.dependencies normal_dep_filter p.name with
    | none => rfl
    | some d => simp [promote_unknown_target]

/-- C6: both resolved dependency lists are sorted ascending by dependency
package identifier, and the resolved output is unchanged when the node's
edge list is permuted (order independence). -/
theorem deps_sorted_and_edge_order_independent
    (canonicalize : PathBuf → Except String PathBuf) (config : GenerateConfig)
    (metadata : IndexedMetadata) (package : Package) (node node' : Node)
    (cd cd' : CrateDerivation)
    (hwf : ∀ kp ∈ metadata.pkgs_by_id, kp.2.id = kp.1)
    (hn : List.lookup package.id metadata.nodes_by_id = some node)
    (hperm : node'.deps.Perm node.deps)
    (hfeat : node'.features = node.features)
    (h1 : CrateDerivation.resolve canonicalize config metadata package = .ok cd)
    (h2 : CrateDerivation.resolve canonicalize config
        { metadata with nodes_by_id := (package.id, node') :: metadata.nodes_by_id }
        package = .ok cd') :
    cd.dependencies.Pairwise (fun a b => a.package_id ≤ b.package_id) ∧
    cd.build_dependencies.Pairwise (fun a b => a.package_id ≤ b.package_id) ∧
    cd' = cd := by
  obtain ⟨rd, pp, canonical, cfg, hnew1, hpp1, hcanon1, hcfg1, hcd1⟩ :=
    resolve_ok_inv canonicalize config metadata package cd h1
  obtain ⟨rd', pp2, canonical2, cfg2, hnew2, hpp2, hcanon2, hcfg2, hcd2⟩ :=
    resolve_ok_inv canonicalize config
      { metadata with nodes_by_id := (package.id, node') :: metadata.nodes_by_id }
      package cd' h2
  rw [hpp1] at hpp2
  injection hpp2 with hpp2
  subst hpp2
  rw [hcanon1] at hcanon2
  injection hcanon2 with hcanon2
  subst hcanon2
  rw [hcfg1] at hcfg2
  injection hcfg2 with hcfg2
  subst hcfg2
  obtain ⟨hn1, hdep1, ps1, hc1, hps1⟩ := new_ok_inv metadata package rd hnew1
  rw [hn] at hn1
  injection hn1 with hn1
  subst hn1
  obtain ⟨hn2, hdep2, ps2, hc2, hps2⟩ :=
    new_ok_inv { metadata with nodes_by_id := (package.id, node') :: metadata.nodes_by_id }
      package rd' hnew2
  have hn2' : List.lookup package.id
      ({ metadata with
          nodes_by_id := (package.id, node') :: metadata.nodes_by_id }).nodes_by_id =
      some node' := by
    simp [List.lookup_cons]
  rw [hn2'] at hn2
  injection hn2 with hn2
  subst hn2
  have hfa1 := (collect_packages_ok_iff metadata package rd.node rd.node.deps ps1).mp hc1
  have heq1 : ps1 =
      rd.node.deps.filterMap (fun d => List.lookup d.pkg metadata.pkgs_by_id) :=
    forall2_eq_filterMap _ hfa1
  have hfa2 := (collect_packages_ok_iff
    { metadata with nodes_by_id := (package.id, rd'.node) :: metadata.nodes_by_id }
    package rd'.node rd'.node.deps ps2).mp hc2
  have heq2 : ps2 =
      rd'.node.deps.filterMap (fun d => List.lookup d.pkg metadata.pkgs_by_id) :=
    forall2_eq_filterMap _ hfa2
  have hpermps : ps2.Perm ps1 := by
    rw [heq1, heq2]
    exact hperm.filterMap _
  have hsorted1 : rd.packages.Pairwise pkgLe :=
    new_packages_sorted metadata package rd hnew1
  have hsorted2 : rd'.packages.Pairwise pkgLe :=
    new_packages_sorted _ package rd' hnew2
  have hpermpkgs : rd'.packages.Perm rd.packages := by
    rw [hps1, hps2]
    exact (List.perm_insertionSort pkgLe ps2).trans
      (hpermps.trans (List.perm_insertionSort pkgLe ps1).symm)
  have hinj : ∀ x ∈ rd'.packages, ∀ y ∈ rd'.packages, x.id = y.id → x = y :=
    new_packages_id_inj
      { metadata with nodes_by_id := (package.id, rd'.node) :: metadata.nodes_by_id }
      package rd' hwf hnew2
  have hpkgs_eq : rd'.packages = rd.packages :=
    eq_of_perm_of_sorted_pkg hpermpkgs hsorted2 hsorted1 hinj
  have hfd : ∀ f, rd'.filtered_dependencies f = rd.filtered_dependencies f := by
    intro f
    rw [filtered_dependencies_eq, filtered_dependencies_eq, hpkgs_eq, hdep1, hdep2]
  have hsout : ∀ f, (rd.filtered_dependencies f).Pairwise
      (fun a b => a.package_id ≤ b.package_id) := by
    intro f
    rw [filtered_dependencies_eq]
    refine pairwise_filterMap_of_pairwise _ ?_ hsorted1
    intro a b c d hR hga hgb
    obtain ⟨da, -, hca⟩ := Option.map_eq_some'.mp hga
    obtain ⟨db, -, hcb⟩ := Option.map_eq_some'.mp hgb
    rw [← hca, ← hcb]
    exact (pkgLe_iff a b).mp hR
  subst hcd1
  subst hcd2
  refine ⟨hsout normal_dep_filter, hsout build_dep_filter, ?_⟩
  rw [hfd normal_dep_filter, hfd build_dep_filter, hfeat]

/-- Witness for C6 at the concrete `left-pad` instance with the node's edge
list reversed. -/
theorem deps_sorted_and_edge_order_independent_witness :
    (∀ kp ∈ exMeta.pkgs_by_id, kp.2.id = kp.1) ∧
    List.lookup exLeftPad.id exMeta.nodes_by_id = some exNode ∧
    exNodeRev.deps.Perm exNode.deps ∧
    exNodeRev.features = exNode.features ∧
    CrateDerivation.resolve exCanon exConfig exMeta exLeftPad =
      .ok exLeftPadDerivation ∧
    CrateDerivation.resolve exCanon exConfig
      { exMeta with nodes_by_id := (exLeftPad.id, exNodeRev) :: exMeta.nodes_by_id }
      exLeftPad = .ok exLeftPadDerivation ∧
    (exLeftPadDerivation.dependencies.Pairwise
        (fun a b => a.package_id ≤ b.package_id) ∧
      exLeftPadDerivation.build_dependencies.Pairwise
        (fun a b => a.package_id ≤ b.package_id) ∧
      exLeftPadDerivation = exLeftPadDerivation) :=
  ⟨by decide, by rfl, by decide, by rfl, by rfl, by rfl,
   deps_sorted_and_edge_order_independent exCanon exConfig exMeta exLeftPad
     exNode exNodeRev exLeftPadDerivation exLeftPadDerivation
     (by decide) (by rfl) (by decide) (by rfl) (by rfl) (by rfl)⟩

/-- Counterexample for C2 as stated: for `app`, which declares `dep-one`
both as a normal and as a build dependency, the resolved package identifier
`dep_one 1.0.0 (registry)` appears in *both* output lists. -/
theorem normal_build_lists_not_disjoint_counterexample :
    CrateDerivation.resolve exCanon exConfig ex2Meta ex2App = .ok ex2Derivation ∧
    "dep_one 1.0.0 (registry)" ∈
      ex2Derivation.dependencies.map ResolvedDependency.package_id ∧
    "dep_one 1.0.0 (registry)" ∈
      ex2Derivation.build_dependencies.map ResolvedDependency.package_id :=
  ⟨by rfl, by decide, by decide⟩

/-- C2 (amended): the normal and build dependency lists are disjoint
provided no two declared dependencies share a normalized name with one of
build kind and the other of normal or unknown kind; without that proviso
the same edge can be matched into both lists (see the counterexample). -/
theorem normal_build_lists_disjoint_unless_dual_kind
    (canonicalize : PathBuf → Except String PathBuf) (config : GenerateConfig)
    (metadata : IndexedMetadata) (package : Package) (cd : CrateDerivation)
    (hwf : ∀ kp ∈ metadata.pkgs_by_id, kp.2.id = kp.1)
    (h : CrateDerivation.resolve canonicalize config metadata package = .ok cd)
    (hkinds : ∀ d1 ∈ package.dependencies, ∀ d2 ∈ package.dependencies,
      build_dep_filter d1 = true → normal_dep_filter d2 = true →
      normalize_package_name d1.name ≠ normalize_package_name d2.name) :
    ∀ pid, pid ∈ cd.dependencies.map ResolvedDependency.package_id →
      pid ∉ cd.build_dependencies.map ResolvedDependency.package_id := by
  obtain ⟨rd, pp, canonical, cfg, hnew, -, -, -, hcd⟩ :=
    resolve_ok_inv canonicalize config metadata package cd h
  have hdeps : rd.dependencies = package.dependencies :=
    (new_ok_inv metadata package rd hnew).2.1
  subst hcd
  intro pid hmemN hmemB
  obtain ⟨rN, hrN, hidN⟩ := List.mem_map.mp hmemN
  obtain ⟨rB, hrB, hidB⟩ := List.mem_map.mp hmemB
  obtain ⟨p1, hp1, d2, hlast2, hreq2⟩ :=
    (mem_filtered_dependencies rd normal_dep_filter rN).mp hrN
  obtain ⟨p2, hp2, d1, hlast1, hreq1⟩ :=
    (mem_filtered_dependencies rd build_dep_filter rB).mp hrB
  obtain ⟨hd2mem, hf2, hn2⟩ := lastMatch_some_spec rd.dependencies _ _ _ hlast2
  obtain ⟨hd1mem, hf1, hn1⟩ := lastMatch_some_spec rd.dependencies _ _ _ hlast1
  subst hreq2
  subst hreq1
  have hid1 : p1.id = pid := hidN
  have hid2 : p2.id = pid := hidB
  have hpeq : p1 = p2 :=
    new_packages_id_inj metadata package rd hwf hnew p1 hp1 p2 hp2
      (hid1.trans hid2.symm)
  refine hkinds d1 (hdeps ▸ hd1mem) d2 (hdeps ▸ hd2mem) hf1 hf2 ?_
  rw [hn1, hn2, hpeq]

/-- Witness for the amended C2 at the concrete `left-pad` instance, whose
declared names of build and normal kind are distinct. -/
theorem normal_build_lists_disjoint_unless_dual_kind_witness :
    (∀ kp ∈ exMeta.pkgs_by_id, kp.2.id = kp.1) ∧
    CrateDerivation.resolve exCanon exConfig exMeta exLeftPad =
      .ok exLeftPadDerivation ∧
    (∀ d1 ∈ exLeftPad.dependencies, ∀ d2 ∈ exLeftPad.dependencies,
      build_dep_filter d1 = true → normal_dep_filter d2 = true →
      normalize_package_name d1.name ≠ normalize_package_name d2.name) ∧
    (∀ pid, pid ∈ exLeftPadDerivation.dependencies.map ResolvedDependency.package_id →
      pid ∉ exLeftPadDerivation.build_dependencies.map ResolvedDependency.package_id) :=
  ⟨by decide, by rfl, by decide,
   normal_build_lists_disjoint_unless_dual_kind exCanon exConfig exMeta exLeftPad
     exLeftPadDerivation (by decide) (by rfl) (by decide)⟩
